import Mathlib

/-!
# Verification of the Opros survey core

Shallow embedding of the repository's survey flow engine
(`backend/app/services/survey_engine.py`), the flow-state handling of the
survey endpoints (`backend/app/api/v1/endpoints/survey.py`), the graph
validator (`backend/app/api/v1/endpoints/survey_editor.py`), and the
clinical rule evaluator described in the specification.

Python dictionaries are modelled as association lists, Python's dynamic
values by the inductive type `PyVal`, raised exceptions by `Except`, and
machine-independent arithmetic by `Int`/`Rat`.
-/

namespace Opros

/-- A Python value as it occurs in survey answers and configurations:
`None`, a bool, an int, a string, a list, or a string-keyed dict. -/
inductive PyVal where
  | none : PyVal
  | bool (b : Bool) : PyVal
  | int (n : Int) : PyVal
  | str (s : String) : PyVal
  | list (xs : List PyVal) : PyVal
  | dict (kvs : List (String × PyVal)) : PyVal

/-- Python truthiness (`bool(v)`). -/
def pyTruthy : PyVal → Bool
  | .none => false
  | .bool b => b
  | .int n => n != 0
  | .str s => s != ""
  | .list xs => !xs.isEmpty
  | .dict kvs => !kvs.isEmpty

mutual

/-- Python `repr` for the values above (quotes strings; used inside
`str` of containers). Non-ASCII escaping is not modelled. -/
def pyRepr : PyVal → String
  | .none => "None"
  | .bool b => if b then "True" else "False"
  | .int n => toString n
  | .str s =>
      if s.data.contains (Char.ofNat 39) && !s.data.contains '"' then
        "\"" ++ s ++ "\""
      else "\x27" ++ s ++ "\x27"
  | .list xs => "[" ++ pyReprList xs ++ "]"
  | .dict kvs => "\x7b" ++ pyReprDict kvs ++ "\x7d"

/-- Comma-joined `repr`s of the elements of a Python list. -/
def pyReprList : List PyVal → String
  | [] => ""
  | [x] => pyRepr x
  | x :: xs => pyRepr x ++ ", " ++ pyReprList xs

/-- Comma-joined `repr`s of the entries of a Python dict. -/
def pyReprDict : List (String × PyVal) → String
  | [] => ""
  | [(k, v)] => "\x27" ++ k ++ "\x27: " ++ pyRepr v
  | (k, v) :: kvs => "\x27" ++ k ++ "\x27: " ++ pyRepr v ++ ", " ++ pyReprDict kvs

end

/-- Python `str(v)`: identity on strings, `repr`-based inside containers. -/
def pyStr : PyVal → String
  | .str s => s
  | v => pyRepr v

/-- The whitespace characters stripped by Python's `str.strip()`
(ASCII subset). -/
def isPySpace (c : Char) : Bool :=
  c = ' ' || c = '\t' || c = '\n' || c = '\r' || c = '\x0b' || c = '\x0c'

/-- Strip characters satisfying `p` from both ends of a char list. -/
def stripBy (p : Char → Bool) (cs : List Char) : List Char :=
  ((cs.dropWhile p).reverse.dropWhile p).reverse

/-- Python `s.strip()`. -/
def pyStrip (s : String) : String := ⟨stripBy isPySpace s.data⟩

/-- Python `s.strip("'\"")`: drop quote characters from both ends. -/
def stripQuotes (s : String) : String :=
  ⟨stripBy (fun c => c = Char.ofNat 39 || c = '"') s.data⟩

/-- Index of the first occurrence of `pat` in `s`, if any. -/
def findSub (pat : List Char) : List Char → Option Nat
  | [] => if pat.isPrefixOf ([] : List Char) then some 0 else Option.none
  | c :: cs =>
      if pat.isPrefixOf (c :: cs) then some 0
      else (findSub pat cs).map (· + 1)

/-- Python `pat in s` on strings. -/
def containsSubstrB (s pat : String) : Bool := (findSub pat.data s.data).isSome

/-- Python `s.split(pat, 1)` when `pat` occurs in `s`. -/
def splitOnceAt (s pat : String) : Option (String × String) :=
  (findSub pat.data s.data).map fun i =>
    (⟨s.data.take i⟩, ⟨s.data.drop (i + pat.data.length)⟩)

/-- Python `s.rsplit(".", 1)` (assuming a dot occurs; `(s, "")` otherwise). -/
def rsplitDot (s : String) : String × String :=
  match findSub ['.'] s.data.reverse with
  | some j =>
      let i := s.data.length - 1 - j
      (⟨s.data.take i⟩, ⟨s.data.drop (i + 1)⟩)
  | Option.none => (s, "")

/-- Digits-only string to `Nat` (empty or non-digit input fails). -/
def digitsToNat (cs : List Char) : Option Nat :=
  if cs ≠ [] && cs.all Char.isDigit then
    some (cs.foldl (fun acc c => acc * 10 + (c.toNat - '0'.toNat)) 0)
  else Option.none

/-- Python `int(s)` on a string: optional sign and decimal digits,
surrounded by optional whitespace; anything else raises (`Option.none`). -/
def parseIntStr (s : String) : Option Int :=
  match stripBy isPySpace s.data with
  | '+' :: ds => (digitsToNat ds).map Int.ofNat
  | '-' :: ds => (digitsToNat ds).map fun n => -(n : Int)
  | ds => (digitsToNat ds).map Int.ofNat

/-- Python `int(v)` on a value: ints and bools convert, strings parse,
everything else raises (`Option.none`). -/
def toIntPy : PyVal → Option Int
  | .int n => some n
  | .bool b => some (if b then 1 else 0)
  | .str s => parseIntStr s
  | _ => Option.none

/-- First-match lookup in an association list (Python `dict.get`). -/
def lookupAssoc {α : Type} (l : List (String × α)) (k : String) : Option α :=
  match l.find? (fun kv => kv.1 == k) with
  | some kv => some kv.2
  | Option.none => Option.none

/-- Python `e in xs` for a string `e` and list `xs` (equality between a
string and a non-string Python value is `False`). -/
def pyEqStrVal (e : String) : PyVal → Bool
  | .str s => s == e
  | _ => false

/-- An answer for one node: the untyped dictionary stored per session
(`selected`, `value`, `text`, `locations`, `additional_fields`, ...). -/
def Answer : Type := List (String × PyVal)

/-- The map of all prior answers, keyed by node id. -/
def AllAnswers : Type := List (String × Answer)

/-! ## Condition evaluator (`SurveyEngine._evaluate_condition`) -/

/-- Operator detection of `_evaluate_condition`: scan the condition text
for operator substrings in the fixed priority order
`contains`, `==`, `>=`, `<=`, `>`, `<`; split at the first occurrence of
the detected operator. -/
def detectOp (c : String) : Option (String × String × String) :=
  if containsSubstrB c "contains" then
    (splitOnceAt c "contains").map fun p => ("contains", p.1, p.2)
  else if containsSubstrB c "==" then
    (splitOnceAt c "==").map fun p => ("==", p.1, p.2)
  else if containsSubstrB c ">=" then
    (splitOnceAt c ">=").map fun p => (">=", p.1, p.2)
  else if containsSubstrB c "<=" then
    (splitOnceAt c "<=").map fun p => ("<=", p.1, p.2)
  else if containsSubstrB c ">" then
    (splitOnceAt c ">").map fun p => (">", p.1, p.2)
  else if containsSubstrB c "<" then
    (splitOnceAt c "<").map fun p => ("<", p.1, p.2)
  else Option.none

/-- `SurveyEngine._get_answer_value`: every branch is `answer.get(field)`,
with `None` (here `PyVal.none`) for a missing key. -/
def getAnswerValue (field : String) (answer : Answer) : PyVal :=
  (lookupAssoc answer field).getD PyVal.none

/-- Field resolution of `_evaluate_condition`: strip the left-hand side;
a dotted field `node_id.field` reads `all_answers[node_id]` (empty dict
when absent), a bare field reads the current answer. -/
def resolveActual (lhs : String) (answer : Answer) (allAnswers : AllAnswers) :
    PyVal :=
  let field := pyStrip lhs
  if field.data.contains '.' then
    let p := rsplitDot field
    getAnswerValue p.2 ((lookupAssoc allAnswers p.1).getD [])
  else
    getAnswerValue field answer

/-- The body of `_evaluate_condition`'s `try` block, with raised
exceptions (the `int(...)` coercion failures) modelled as `Except.error`.
Unsupported condition formats return `ok false` (the code logs and
returns `False` without raising). -/
def evalConditionExc (cond : String) (answer : Answer)
    (allAnswers : AllAnswers) : Except String Bool :=
  let c := pyStrip cond
  match detectOp c with
  | Option.none => Except.ok false
  | some (op, lhs, rhs) =>
    let expected := stripQuotes (pyStrip rhs)
    let actual := resolveActual lhs answer allAnswers
    if op = "==" then
      Except.ok (pyStr actual == expected)
    else if op = "contains" then
      Except.ok
        (match actual with
         | PyVal.list xs => xs.any (pyEqStrVal expected)
         | v => if pyTruthy v then containsSubstrB (pyStr v) expected else false)
    else
      match actual with
      | PyVal.none => Except.ok false
      | v =>
        match toIntPy v with
        | Option.none => Except.error "int() argument coercion failed"
        | some x =>
          match parseIntStr expected with
          | Option.none => Except.error "invalid literal for int()"
          | some y =>
            if op = ">" then Except.ok (decide (x > y))
            else if op = "<" then Except.ok (decide (x < y))
            else if op = ">=" then Except.ok (decide (x ≥ y))
            else Except.ok (decide (x ≤ y))

/-- `SurveyEngine._evaluate_condition`: the `try/except` wrapper around
`evalConditionExc` — any exception is caught, logged and turned into
`False`. -/
def evalCondition (cond : String) (answer : Answer)
    (allAnswers : AllAnswers) : Bool :=
  match evalConditionExc cond answer allAnswers with
  | Except.ok b => b
  | Except.error _ => false

/-! ## Graph model -/

/-- A logic rule of a node: `{condition?: string, next_node: string,
default?: bool}`. A missing `next_node` is `Option.none`; `default`
reflects the truthiness of `rule.get("default", False)`. -/
structure LogicRule where
  condition : Option String := Option.none
  next_node : Option String := Option.none
  default : Bool := false
  deriving DecidableEq

/-- A survey node, with the fields the engine and the validator read.
`ntype` is the node's `type` string; a missing `logic`/`options` key is
the empty list, matching `node.get(..., [])`. -/
structure SNode where
  id : String
  ntype : Option String := Option.none
  question_text : Option String := Option.none
  options : List String := []
  logic : List LogicRule := []
  min_value : Option Int := Option.none
  max_value : Option Int := Option.none
  is_final : Bool := false
  deriving DecidableEq

/-- A survey graph / JSON configuration: `start_node` plus the node list
(`Option.none` models a missing `start_node` key). -/
structure Graph where
  start_node : Option String := Option.none
  nodes : List SNode := []
  deriving DecidableEq

/-- Truthiness of an optional string (`if condition:` /
`if next_id:` in the code). -/
def truthyOptStr : Option String → Bool
  | some s => s != ""
  | Option.none => false

/-- Insert-or-replace into the id-keyed dict built by
`{node["id"]: node for node in nodes}` (a later node overwrites an
earlier one with the same id, keeping the first key position). -/
def upsertNode : List (String × SNode) → SNode → List (String × SNode)
  | [], n => [(n.id, n)]
  | (k, v) :: rest, n =>
      if k == n.id then (k, n) :: rest else (k, v) :: upsertNode rest n

/-- `self.nodes`: the id → node dict of `SurveyEngine.__init__`. -/
def dictNodes (g : Graph) : List (String × SNode) :=
  g.nodes.foldl upsertNode []

/-- `SurveyEngine.get_node`: dict lookup by id. -/
def nodeById (g : Graph) (node_id : String) : Option SNode :=
  lookupAssoc (dictNodes g) node_id

/-- `SurveyEngine._get_default_next_node`: walk the configured node list,
and at the first node whose id equals the current one return the id of
the node after it (or `Option.none` at the end of the list). -/
def seqNext : List SNode → String → Option String
  | [], _ => Option.none
  | n :: rest, cur =>
      if n.id == cur then
        match rest with
        | [] => Option.none
        | m :: _ => some m.id
      else seqNext rest cur

/-- First pass of `get_next_node` over `logic`: skip rules flagged
`default`; at the first remaining rule whose condition is truthy and
evaluates to true, return that rule's `next_node` (wrapped in `some`). -/
def firstPass (answer : Answer) (allAnswers : AllAnswers) :
    List LogicRule → Option (Option String)
  | [] => Option.none
  | r :: rest =>
      if r.default then firstPass answer allAnswers rest
      else
        match r.condition with
        | some c =>
            if c != "" && evalCondition c answer allAnswers then some r.next_node
            else firstPass answer allAnswers rest
        | Option.none => firstPass answer allAnswers rest

/-- Second pass of `get_next_node`: return the `next_node` of the first
rule flagged `default`, if any. -/
def defaultPass : List LogicRule → Option (Option String)
  | [] => Option.none
  | r :: rest => if r.default then some r.next_node else defaultPass rest

/-- The logic-driven part of `get_next_node` (everything after the node
lookup): empty logic falls back to the sequential default, otherwise the
two passes run with the sequential default as final fallback. -/
def nextViaLogic (g : Graph) (cur : String) (logic : List LogicRule)
    (answer : Answer) (allAnswers : AllAnswers) : Option String :=
  if logic.isEmpty then seqNext g.nodes cur
  else
    match firstPass answer allAnswers logic with
    | some nn => nn
    | Option.none =>
      match defaultPass logic with
      | some nn => nn
      | Option.none => seqNext g.nodes cur

/-- `SurveyEngine.get_next_node`: look up the current node (missing node
logs and returns `None`), then follow the logic rules. -/
def getNextNode (g : Graph) (cur : String) (answer : Answer)
    (allAnswers : AllAnswers) : Option String :=
  match nodeById g cur with
  | Option.none => Option.none
  | some node => nextViaLogic g cur node.logic answer allAnswers

/-- Python `min(a, b)` on two numbers (returns the first on ties, like
`min(100.0, x)` in the code); written with `if` so that it computes. -/
def pyMin (a b : ℚ) : ℚ := if b < a then b else a

/-- The countable nodes of `calculate_progress`: values of the node dict
whose `type` is not `info_screen`. -/
def countableNodes (g : Graph) : List SNode :=
  ((dictNodes g).map Prod.snd).filter fun n => n.ntype != some "info_screen"

/-- `SurveyEngine.calculate_progress`: percentage of answered nodes over
the countable nodes, capped at 100 (exact rational arithmetic stands in
for Python floats). -/
def calculateProgress (g : Graph) (answered_nodes : List String) : ℚ :=
  if (dictNodes g).length = 0 then 100
  else if (countableNodes g).length = 0 then 100
  else
    pyMin 100
      (((answered_nodes.filter fun nid =>
            (lookupAssoc (dictNodes g) nid).isSome).length : ℚ) /
        ((countableNodes g).length : ℚ) * 100)

/-! ## Flow state (endpoints `/survey/start`, `/survey/answer`,
`/survey/back`) -/

/-- Per-session flow state, as persisted in Redis:
`{current_node, answers, history}`. -/
structure FlowState where
  current : Option String
  answers : AllAnswers
  history : List String

/-- The initial progress written by `start_survey`: current node and
history seeded with `config.get("start_node", "welcome")`. -/
def startState (g : Graph) : FlowState :=
  let s := g.start_node.getD "welcome"
  { current := some s, answers := [], history := [s] }

/-- Insert-or-replace of one node's answer
(`progress["answers"][node_id] = data.answer_data`). -/
def upsertAnswer : AllAnswers → String → Answer → AllAnswers
  | [], nid, a => [(nid, a)]
  | (k, v) :: rest, nid, a =>
      if k == nid then (k, a) :: rest else (k, v) :: upsertAnswer rest nid a

/-- Delete a node's stored answer if present
(`if node in answers: del answers[node]`). -/
def eraseKey (k : String) (l : AllAnswers) : AllAnswers :=
  l.filter fun kv => kv.1 != k

/-- The state update of `submit_answer`: compute the next node from the
answers recorded so far, store the new answer, move `current_node`, and
append the next node to `history` only when it is truthy and not already
present. -/
def submitAnswer (g : Graph) (st : FlowState) (node_id : String)
    (answer_data : Answer) : FlowState :=
  let next := getNextNode g node_id answer_data st.answers
  { current := next
    answers := upsertAnswer st.answers node_id answer_data
    history :=
      match next with
      | some nn =>
          if nn != "" && !st.history.contains nn then st.history ++ [nn]
          else st.history
      | Option.none => st.history }

/-- The state update of `go_back`: reject (`Option.none` — an HTTP 400,
the stored state is untouched) unless `history` has more than one entry;
otherwise pop the last entry, drop its stored answer and step
`current_node` back to the new last entry. -/
def goBack (st : FlowState) : Option FlowState :=
  if st.history.length ≤ 1 then Option.none
  else
    match st.history.getLast? with
    | Option.none => Option.none
    | some popped =>
        let rest := st.history.dropLast
        let prev := match rest.getLast? with
          | some x => x
          | Option.none => "welcome"
        some { current := some prev
               answers := eraseKey popped st.answers
               history := rest }

/-- The flow states reachable from session start by any sequence of
accepted answer submissions and successful back-navigations. -/
inductive ReachableState (g : Graph) : FlowState → Prop where
  | start : ReachableState g (startState g)
  | submit {st : FlowState} (node_id : String) (answer_data : Answer) :
      ReachableState g st → ReachableState g (submitAnswer g st node_id answer_data)
  | back {st st' : FlowState} :
      ReachableState g st → goBack st = some st' → ReachableState g st'

/-- The `is_finished` flag of `submit_answer`: the survey is finished
when the next node is `None`, or is a truthy id whose node is flagged
`is_final`. -/
def isFinished (g : Graph) (next : Option String) : Bool :=
  match next with
  | some nn =>
      if nn != "" then
        match nodeById g nn with
        | some n => n.is_final
        | Option.none => false
      else false
  | Option.none => true

/-- The progress percentage computed inline by `submit_answer` (lines
354–374): 100 when finished, otherwise `completed` answers over an
estimated path length `max(5, int(countable * 0.6))`, capped at 95.
`int(n * 0.6)` (float multiply, truncation) is modelled as `3 * n / 5`
in `Nat`, which agrees with the float computation for all list sizes the
double rounding can reach. -/
def submitProgress (g : Graph) (next : Option String) (completed : Nat) : ℚ :=
  if isFinished g next then 100
  else
    pyMin 95 ((completed : ℚ) /
      ((max 5 (3 * (g.nodes.filter fun n =>
          n.ntype != some "info_screen").length / 5) : Nat) : ℚ) * 100)

/-! ## Graph validator (`validate_survey_structure`) -/

/-- One validation issue: `{type: error|warning, node_id?, message}`. -/
structure ValidationIssue where
  type : String
  node_id : Option String := Option.none
  message : String
  deriving DecidableEq

/-- The validator's result `{valid, errors, warnings}`. -/
structure ValidationResult where
  valid : Bool
  errors : List ValidationIssue
  warnings : List ValidationIssue

/-- Concatenation of `f` over a list, preserving order (the issues a
`for` loop appends one element at a time). -/
def catMap {α β : Type} (f : α → List β) : List α → List β
  | [] => []
  | x :: xs => f x ++ catMap f xs

/-- The start-node check (step 1 of `validate_survey_structure`):
a falsy `start_node` is one error, a start id absent from the node ids
is one error carrying that id. -/
def startErrors (start_node : Option String) (ids : List String) :
    List ValidationIssue :=
  if truthyOptStr start_node = false then
    [{ type := "error", message := "Не указан стартовый узел (start_node)" }]
  else
    match start_node with
    | some s =>
        if s ∈ ids then []
        else
          [{ type := "error", node_id := some s
             message := "Стартовый узел \x27" ++ s ++ "\x27 не найден среди узлов" }]
    | Option.none => []

/-- The final-node check (step 2): warn when no node is flagged
`is_final` or typed `info_screen`. -/
def finalWarnings (nodes : List SNode) : List ValidationIssue :=
  if nodes.any (fun n => n.is_final || n.ntype == some "info_screen") then []
  else
    [{ type := "warning"
       message := "Не найден финальный узел (info_screen или is_final=true)" }]

/-- `collect_reachable`: depth-first collection of the nodes reachable
from a given id over all truthy `next_node` edges, with an explicit
visited list. The recursion is paid for with fuel; `nodes.length + 1`
fuel (supplied by `reachableSet`) is enough for the depth-first walk to
behave exactly like the Python recursion, whose depth is bounded by the
number of distinct ids. -/
def collectReachable (nodes : List SNode) (ids : List String) :
    Nat → String → List String → List String
  | 0, _, visited => visited
  | fuel + 1, node_id, visited =>
      if node_id ∈ visited ∨ node_id ∉ ids then visited
      else
        let visited := visited ++ [node_id]
        match nodes.find? (fun n => n.id == node_id) with
        | Option.none => visited
        | some node =>
            node.logic.foldl
              (fun vis rule =>
                match rule.next_node with
                | some nid =>
                    if nid != "" then collectReachable nodes ids fuel nid vis
                    else vis
                | Option.none => vis)
              visited

/-- The reachable set used by the validator: the depth-first walk from
`start_node`, run only when the start id is truthy and resolvable. -/
def reachableSet (g : Graph) : List String :=
  let ids := g.nodes.map SNode.id
  match g.start_node with
  | some s =>
      if s != "" && ids.contains s then
        collectReachable g.nodes ids (g.nodes.length + 1) s []
      else []
  | Option.none => []

/-- The choice-typed node kinds that must carry options. -/
def choiceTypes : List String :=
  ["single_choice", "multi_choice", "multi_choice_with_input"]

/-- The errors the per-node loop appends for one node, in loop order:
missing question text, choice node without options, dangling
`next_node` references, slider without both bounds. -/
def nodeErrors (ids : List String) (n : SNode) : List ValidationIssue :=
  (if truthyOptStr n.question_text = false then
     [{ type := "error", node_id := some n.id
        message := "Узел \x27" ++ n.id ++ "\x27 не имеет текста вопроса" }]
   else []) ++
  (match n.ntype with
   | some t =>
       if t ∈ choiceTypes ∧ n.options = [] then
         [{ type := "error", node_id := some n.id
            message := "Узел \x27" ++ n.id ++ "\x27 типа \x27" ++ t ++
              "\x27 не имеет вариантов ответа" }]
       else []
   | Option.none => []) ++
  (catMap
    (fun r =>
      match r.next_node with
      | some nid =>
          if nid ≠ "" ∧ nid ∉ ids then
            [{ type := "error", node_id := some n.id
               message := "Узел \x27" ++ n.id ++
                 "\x27 ссылается на несуществующий узел \x27" ++ nid ++ "\x27" }]
          else []
      | Option.none => [])
    n.logic) ++
  (if n.ntype = some "slider" ∧ (n.min_value = Option.none ∨ n.max_value = Option.none) then
     [{ type := "error", node_id := some n.id
        message := "Узел \x27" ++ n.id ++
          "\x27 типа slider должен иметь min_value и max_value" }]
   else [])

/-- The unreachable-node warning for a node id. -/
def unreachableWarning (node_id : String) : ValidationIssue :=
  { type := "warning", node_id := some node_id
    message := "Узел \x27" ++ node_id ++ "\x27 недостижим от стартового узла" }

/-- `node_id != start_node` of the unreachable check: comparing a string
id with a possibly missing start node (a string never equals `None`). -/
def notStartB (start_node : Option String) (i : String) : Bool :=
  match start_node with
  | some s => i != s
  | Option.none => true

/-- The warnings the per-node loop appends for one node, in loop order:
dead end (no logic on a non-final, non-info node), then structural
unreachability from the start node. -/
def nodeWarnings (start_node : Option String) (reachable : List String)
    (n : SNode) : List ValidationIssue :=
  (if n.logic = [] ∧ n.is_final = false ∧ n.ntype ≠ some "info_screen" then
     [{ type := "warning", node_id := some n.id
        message := "Узел \x27" ++ n.id ++ "\x27 не имеет правил перехода" }]
   else []) ++
  (if !reachable.contains n.id && notStartB start_node n.id then
     [unreachableWarning n.id]
   else [])

/-- All blocking errors of `validate_survey_structure`, in emission
order. Note that this definition never consults reachability. -/
def validateErrors (g : Graph) : List ValidationIssue :=
  let ids := g.nodes.map SNode.id
  startErrors g.start_node ids ++ catMap (nodeErrors ids) g.nodes

/-- All advisory warnings of `validate_survey_structure`, in emission
order. -/
def validateWarnings (g : Graph) : List ValidationIssue :=
  finalWarnings g.nodes ++
    catMap (nodeWarnings g.start_node (reachableSet g)) g.nodes

/-- `validate_survey_structure`: partition the checks into blocking
errors and advisory warnings; `valid` iff no error was emitted. -/
def validateSurveyStructure (g : Graph) : ValidationResult :=
  let errors := validateErrors g
  { valid := errors.isEmpty
    errors := errors
    warnings := validateWarnings g }

/-! ## Clinical rule evaluator -/

/-- Per-trigger match mode: `exact`, `contains` or `gte`. -/
inductive MatchMode where
  | exact : MatchMode
  | contains : MatchMode
  | gte : MatchMode
  deriving DecidableEq

/-- Rule firing mode: `any` or `all`. -/
inductive TriggerMode where
  | any : TriggerMode
  | all : TriggerMode
  deriving DecidableEq

/-- An atomic clinical-rule predicate over one node's answer:
`{node_id, option_value, match_mode}`. -/
structure Trigger where
  node_id : String
  option_value : String
  match_mode : MatchMode

/-- A clinical rule: `{name?, message, color, trigger_mode, triggers}`. -/
structure ClinicalRule where
  name : Option String := Option.none
  message : String
  color : String
  trigger_mode : TriggerMode
  triggers : List Trigger

/-- One fired-rule entry of the evaluator's output:
`{message, color, name}`. -/
structure AlertEntry where
  message : String
  color : String
  name : Option String
  deriving DecidableEq

/-- Modelled from the spec: the per-trigger matcher
`check(trigger, answer)` of the Clinical Rule Evaluator (spec §4.5),
which is absent from the sources under `src/` (the shipped
`ReportGenerator._generate_v2_alerts` hardcodes its rules instead).
A trigger whose `node_id` has no recorded answer matches nothing;
`exact` compares `option_value` against `answer.selected` (string,
boolean string form, or list membership), against `answer.value` by
numeric `>=` as a fallback, or against `answer.locations` membership;
`contains` is a case-insensitive substring search across `answer.text`,
a string `answer.selected` and the values of `answer.additional_fields`;
`gte` is numeric `answer.value >= option_value`, false on non-numeric
data. -/
def checkTrigger (t : Trigger) (answers : AllAnswers) : Bool :=
  match lookupAssoc answers t.node_id with
  | Option.none => false
  | some a =>
    match t.match_mode with
    | MatchMode.exact =>
        (match lookupAssoc a "selected" with
         | some (PyVal.str s) => s == t.option_value
         | some (PyVal.bool b) => pyStr (PyVal.bool b) == t.option_value
         | some (PyVal.list xs) => xs.any (pyEqStrVal t.option_value)
         | _ => false) ||
        (match lookupAssoc a "value", parseIntStr t.option_value with
         | some (PyVal.int n), some m => decide (n ≥ m)
         | _, _ => false) ||
        (match lookupAssoc a "locations" with
         | some (PyVal.list xs) => xs.any (pyEqStrVal t.option_value)
         | _ => false)
    | MatchMode.contains =>
        let needle := t.option_value.toLower
        (match lookupAssoc a "text" with
         | some (PyVal.str s) => containsSubstrB s.toLower needle
         | _ => false) ||
        (match lookupAssoc a "selected" with
         | some (PyVal.str s) => containsSubstrB s.toLower needle
         | _ => false) ||
        (match lookupAssoc a "additional_fields" with
         | some (PyVal.dict kvs) =>
             kvs.any fun kv => containsSubstrB (pyStr kv.2).toLower needle
         | _ => false)
    | MatchMode.gte =>
        match lookupAssoc a "value", parseIntStr t.option_value with
        | some (PyVal.int n), some m => decide (n ≥ m)
        | _, _ => false

/-- Modelled from the spec: rule firing (spec §4.5). `any` fires on any
matching trigger; `all` groups the triggers by `node_id` and fires only
when every group contains at least one matching trigger. -/
def ruleFires (r : ClinicalRule) (answers : AllAnswers) : Bool :=
  match r.trigger_mode with
  | TriggerMode.any => r.triggers.any fun t => checkTrigger t answers
  | TriggerMode.all =>
      ((r.triggers.map Trigger.node_id).dedup).all fun nid =>
        r.triggers.any fun t => t.node_id == nid && checkTrigger t answers

/-- The `{message, color, name}` entry a firing rule contributes. -/
def ruleEntry (r : ClinicalRule) : AlertEntry :=
  { message := r.message, color := r.color, name := r.name }

/-- Modelled from the spec: `evaluate(rules, answers)` of the Clinical
Rule Evaluator (spec §4.5), absent from `src/` — walk the rule list in
declaration order and emit one entry per firing rule. -/
def evaluateRules (rules : List ClinicalRule) (answers : AllAnswers) :
    List AlertEntry :=
  match rules with
  | [] => []
  | r :: rest =>
      if ruleFires r answers then ruleEntry r :: evaluateRules rest answers
      else evaluateRules rest answers

/-! ## Theorems -/

/-- The rules eligible in `get_next_node`'s first pass: not flagged
`default`, with a truthy condition that evaluates to true. -/
def matchPred (answer : Answer) (allAnswers : AllAnswers) (r : LogicRule) :
    Bool :=
  !r.default &&
    (match r.condition with
     | some c => c != "" && evalCondition c answer allAnswers
     | Option.none => false)

theorem firstPass_eq_find (answer : Answer) (allAnswers : AllAnswers) :
    ∀ logic : List LogicRule,
      firstPass answer allAnswers logic =
        (logic.find? (matchPred answer allAnswers)).map LogicRule.next_node
  | [] => rfl
  | r :: rest => by
      rw [firstPass]
      cases hd : r.default with
      | true =>
          have hp : matchPred answer allAnswers r = false := by
            simp [matchPred, hd]
          simp [hd, List.find?, hp, firstPass_eq_find answer allAnswers rest]
      | false =>
          cases hc : r.condition with
          | none =>
              have hp : matchPred answer allAnswers r = false := by
                simp [matchPred, hd, hc]
              simp [hd, hc, List.find?, hp,
                firstPass_eq_find answer allAnswers rest]
          | some c =>
              cases he : (c != "" && evalCondition c answer allAnswers) with
              | true =>
                  have hp : matchPred answer allAnswers r = true := by
                    simp [matchPred, hd, hc]
                    simpa using he
                  simp [hd, hc, he, List.find?, hp]
              | false =>
                  have hp : matchPred answer allAnswers r = false := by
                    simp only [matchPred, hd, hc]
                    simpa using he
                  simp [hd, hc, he, List.find?, hp,
                    firstPass_eq_find answer allAnswers rest]

theorem defaultPass_eq_find :
    ∀ logic : List LogicRule,
      defaultPass logic =
        (logic.find? (fun r => r.default)).map LogicRule.next_node
  | [] => rfl
  | r :: rest => by
      rw [defaultPass]
      cases hd : r.default with
      | true => simp [List.find?, hd]
      | false => simp [List.find?, hd, defaultPass_eq_find rest]

/-- C1. `get_next_node` on a node present in the graph: with a non-empty
logic list it returns the `next_node` of the first non-default rule whose
condition is truthy and evaluates true (first-match-wins); failing that,
the `next_node` of the first rule flagged `default`; failing that — or
with an empty logic list — the sequential fallback, i.e. the id of the
node immediately following the current one in the graph's node list
(`None` when the current node is last). -/
theorem getNextNode_first_match (g : Graph) (cur : String) (answer : Answer)
    (allAnswers : AllAnswers) (node : SNode)
    (h : nodeById g cur = some node) :
    getNextNode g cur answer allAnswers =
      if node.logic.isEmpty then seqNext g.nodes cur
      else
        match node.logic.find? (matchPred answer allAnswers) with
        | some r => r.next_node
        | Option.none =>
          match node.logic.find? (fun r => r.default) with
          | some r => r.next_node
          | Option.none => seqNext g.nodes cur := by
  have hstep : getNextNode g cur answer allAnswers =
      nextViaLogic g cur node.logic answer allAnswers := by
    unfold getNextNode
    rw [h]
  rw [hstep]
  unfold nextViaLogic
  rw [firstPass_eq_find, defaultPass_eq_find]
  cases hf : node.logic.find? (matchPred answer allAnswers) with
  | some r => simp
  | none =>
      cases hd : node.logic.find? (fun r => r.default) with
      | some r => simp
      | none => simp

/-- The example node of the spec: `logic = [{condition:"value>5",
next_node:"A"}, {default:true, next_node:"B"}]`. -/
def exampleLogicNode : SNode :=
  { id := "q"
    logic := [ { condition := some "value>5", next_node := some "A" }
             , { next_node := some "B", default := true } ] }

/-- A small graph exercising conditional, default and sequential
transitions. -/
def exampleGraph : Graph :=
  { start_node := some "q"
    nodes := [exampleLogicNode, { id := "A" }, { id := "B" }] }

/-- Witness for C1: on the example graph, answer `{value: 3}` falls back
to the default rule (`"B"`) and answer `{value: 9}` takes the first
matching rule (`"A"`). -/
theorem getNextNode_first_match_witness :
    getNextNode exampleGraph "q" [("value", PyVal.int 3)] [] = some "B" ∧
    getNextNode exampleGraph "q" [("value", PyVal.int 9)] [] = some "A" := by
  constructor
  · rw [getNextNode_first_match exampleGraph "q" [("value", PyVal.int 3)] []
      exampleLogicNode (by decide)]
    decide
  · rw [getNextNode_first_match exampleGraph "q" [("value", PyVal.int 9)] []
      exampleLogicNode (by decide)]
    decide

/-- A rule that is not flagged `default` and has a missing or empty
condition: skipped by both passes of `get_next_node`. -/
def skippedRule (r : LogicRule) : Prop :=
  r.default = false ∧ (r.condition = Option.none ∨ r.condition = some "")

theorem matchPred_of_skipped (answer : Answer) (allAnswers : AllAnswers)
    (r : LogicRule) (hr : skippedRule r) :
    matchPred answer allAnswers r = false := by
  obtain ⟨hd, hc⟩ := hr
  rcases hc with hc | hc <;> simp [matchPred, hd, hc]

theorem firstPass_skip (answer : Answer) (allAnswers : AllAnswers)
    (r : LogicRule) (hr : skippedRule r) :
    ∀ l1 l2 : List LogicRule,
      firstPass answer allAnswers (l1 ++ r :: l2) =
        firstPass answer allAnswers (l1 ++ l2)
  | [], l2 => by
      obtain ⟨hd, hc⟩ := hr
      rw [List.nil_append, List.nil_append, firstPass, hd]
      rcases hc with hc | hc <;> simp [hc]
  | x :: xs, l2 => by
      rw [List.cons_append, List.cons_append, firstPass, firstPass,
        firstPass_skip answer allAnswers r hr xs l2]

theorem defaultPass_skip (r : LogicRule) (hr : skippedRule r) :
    ∀ l1 l2 : List LogicRule,
      defaultPass (l1 ++ r :: l2) = defaultPass (l1 ++ l2)
  | [], l2 => by
      rw [List.nil_append, List.nil_append, defaultPass, hr.1]
      simp
  | x :: xs, l2 => by
      rw [List.cons_append, List.cons_append, defaultPass, defaultPass,
        defaultPass_skip r hr xs l2]

theorem firstPass_all_skipped (answer : Answer) (allAnswers : AllAnswers) :
    ∀ logic : List LogicRule, (∀ r ∈ logic, skippedRule r) →
      firstPass answer allAnswers logic = Option.none
  | [], _ => rfl
  | r :: rest, h => by
      obtain ⟨hd, hc⟩ := h r (List.mem_cons_self r rest)
      rw [firstPass, hd]
      have ih := firstPass_all_skipped answer allAnswers rest
        (fun x hx => h x (List.mem_cons_of_mem r hx))
      rcases hc with hc | hc <;> simp [hc, ih]

theorem defaultPass_all_skipped :
    ∀ logic : List LogicRule, (∀ r ∈ logic, skippedRule r) →
      defaultPass logic = Option.none
  | [], _ => rfl
  | r :: rest, h => by
      rw [defaultPass, (h r (List.mem_cons_self r rest)).1]
      exact defaultPass_all_skipped rest
        (fun x hx => h x (List.mem_cons_of_mem r hx))

/-- C10. A non-default rule with a missing or empty condition is never
selected: deleting such a rule from anywhere in the logic list leaves the
outcome unchanged; and when every rule of the current node is such a rule
(so none is flagged `default` either), `get_next_node` returns the
sequential fallback. -/
theorem conditionless_rules_never_selected :
    (∀ (g : Graph) (cur : String) (answer : Answer) (allAnswers : AllAnswers)
        (l1 l2 : List LogicRule) (r : LogicRule), skippedRule r →
        nextViaLogic g cur (l1 ++ r :: l2) answer allAnswers =
          nextViaLogic g cur (l1 ++ l2) answer allAnswers) ∧
    (∀ (g : Graph) (cur : String) (answer : Answer) (allAnswers : AllAnswers)
        (node : SNode), nodeById g cur = some node →
        (∀ r ∈ node.logic, skippedRule r) →
        getNextNode g cur answer allAnswers = seqNext g.nodes cur) := by
  constructor
  · intro g cur answer allAnswers l1 l2 r hr
    unfold nextViaLogic
    rw [firstPass_skip answer allAnswers r hr l1 l2,
      defaultPass_skip r hr l1 l2]
    cases hll : l1 ++ l2 with
    | nil =>
        have h1 : (l1 ++ r :: l2).isEmpty = false := by
          have h2 : l1 = [] ∧ l2 = [] := List.append_eq_nil.mp hll
          simp [h2.1, h2.2]
        rw [h1]
        simp [firstPass, defaultPass]
    | cons x xs =>
        have h1 : (l1 ++ r :: l2).isEmpty = false := by
          cases l1 <;> simp
        rw [h1]
        simp
  · intro g cur answer allAnswers node h hall
    have hstep : getNextNode g cur answer allAnswers =
        nextViaLogic g cur node.logic answer allAnswers := by
      unfold getNextNode
      rw [h]
    rw [hstep]
    unfold nextViaLogic
    rw [firstPass_all_skipped answer allAnswers node.logic hall,
      defaultPass_all_skipped node.logic hall]
    cases node.logic.isEmpty <;> simp

/-- A node whose only logic rule is a conditionless non-default rule. -/
def condlessNode : SNode :=
  { id := "n1", logic := [{ next_node := some "n9" }] }

/-- A graph whose first node carries only a conditionless non-default
rule. -/
def condlessGraph : Graph :=
  { start_node := some "n1", nodes := [condlessNode, { id := "n2" }] }

/-- Witness for C10: removing a conditionless non-default rule changes
nothing, and a node whose only rules are conditionless non-default rules
falls back to the next node in declaration order. -/
theorem conditionless_rules_never_selected_witness :
    nextViaLogic exampleGraph "q"
        ([] ++ { next_node := some "Z" : LogicRule } :: []) [] [] =
      nextViaLogic exampleGraph "q" ([] ++ []) [] [] ∧
    getNextNode condlessGraph "n1" [] [] =
      seqNext condlessGraph.nodes "n1" := by
  constructor
  · exact conditionless_rules_never_selected.1 exampleGraph "q" [] [] [] []
      { next_node := some "Z" } ⟨rfl, Or.inl rfl⟩
  · exact conditionless_rules_never_selected.2 condlessGraph "n1" [] []
      condlessNode (by decide)
      (by intro r hr
          simp only [condlessNode, List.mem_singleton] at hr
          subst hr
          exact ⟨rfl, Or.inl rfl⟩)

/-- C2. Condition evaluation is fail-closed. Every evaluation either
returns `false` or agrees with an exception-free run of the `try`-block
body; and for the integer comparison operators, a failed integer
coercion of either side forces the result `false` (never an escaping
exception). -/
theorem evalCondition_fail_closed :
    (∀ (c : String) (a : Answer) (p : AllAnswers),
        evalCondition c a p = false ∨
          evalConditionExc c a p = Except.ok (evalCondition c a p)) ∧
    (∀ (c : String) (a : Answer) (p : AllAnswers) (op lhs rhs : String),
        detectOp (pyStrip c) = some (op, lhs, rhs) →
        (op = ">=" ∨ op = "<=" ∨ op = ">" ∨ op = "<") →
        (toIntPy (resolveActual lhs a p) = Option.none ∨
          parseIntStr (stripQuotes (pyStrip rhs)) = Option.none) →
        evalCondition c a p = false) := by
  constructor
  · intro c a p
    cases h : evalConditionExc c a p with
    | ok b =>
        right
        unfold evalCondition
        rw [h]
    | error e =>
        left
        unfold evalCondition
        rw [h]
  · intro c a p op lhs rhs hdet hop hcoerce
    have hne1 : op ≠ "==" := by rcases hop with h | h | h | h <;> simp [h]
    have hne2 : op ≠ "contains" := by
      rcases hop with h | h | h | h <;> simp [h]
    simp only [evalCondition, evalConditionExc, hdet, hne1, hne2, if_false,
      if_neg]
    cases hv : resolveActual lhs a p with
    | none => simp
    | bool b =>
        rw [hv] at hcoerce
        rcases hcoerce with hc | hc
        · simp [toIntPy] at hc
        · simp [toIntPy, hc]
    | int n =>
        rw [hv] at hcoerce
        rcases hcoerce with hc | hc
        · simp [toIntPy] at hc
        · simp [toIntPy, hc]
    | str s =>
        rw [hv] at hcoerce
        rcases hcoerce with hc | hc
        · simp [toIntPy] at hc
          simp [toIntPy, hc]
        · cases hts : parseIntStr s with
          | none => simp [toIntPy, hts]
          | some x => simp [toIntPy, hts, hc]
    | list xs => simp [toIntPy]
    | dict kvs => simp [toIntPy]

/-- Witness for C2: a comparison against a non-numeric answer value
evaluates to `false` instead of raising. -/
theorem evalCondition_fail_closed_witness :
    evalCondition "value >= 5" [("value", PyVal.str "abc")] [] = false :=
  evalCondition_fail_closed.2 "value >= 5" [("value", PyVal.str "abc")] []
    ">=" "value " " 5" (by decide) (Or.inl rfl) (Or.inl (by decide))

/-- Counterexample to C9 as stated: for a non-list value the code guards
the substring test behind Python truthiness. With no recorded `selected`
the resolved value is `None`, whose string form `"None"` does contain
the literal `"None"` — the claimed "substring test on the value's string
form" yields true — yet evaluation returns `false`. -/
theorem evalCondition_contains_falsy_counterexample :
    evalCondition "selected contains \x27None\x27" [] [] = false ∧
    resolveActual "selected " [] [] = PyVal.none ∧
    containsSubstrB (pyStr (resolveActual "selected " [] [])) "None" = true := by
  refine ⟨by decide, rfl, by decide⟩

/-- C9 (amended). For a condition parsed as `<field> == <literal>`,
evaluation returns true exactly when the string form of the resolved
value equals the (quote-stripped) literal. For `<field> contains
<literal>`: membership if the resolved value is a list; otherwise the
substring test on the value's string form **provided the value is
truthy**, and `false` for a falsy value (`None`, `""`, `0`, ...). In
particular `"selected contains 'cough'"` holds of
`{selected:["cough","fever"]}` and fails of `{selected:["fever"]}`. -/
theorem evalCondition_eq_contains_semantics :
    (∀ (c : String) (a : Answer) (p : AllAnswers) (lhs rhs : String),
        detectOp (pyStrip c) = some ("==", lhs, rhs) →
        evalCondition c a p =
          (pyStr (resolveActual lhs a p) == stripQuotes (pyStrip rhs))) ∧
    (∀ (c : String) (a : Answer) (p : AllAnswers) (lhs rhs : String),
        detectOp (pyStrip c) = some ("contains", lhs, rhs) →
        evalCondition c a p =
          (match resolveActual lhs a p with
           | PyVal.list xs => xs.any (pyEqStrVal (stripQuotes (pyStrip rhs)))
           | v =>
               if pyTruthy v then
                 containsSubstrB (pyStr v) (stripQuotes (pyStrip rhs))
               else false)) ∧
    evalCondition "selected contains \x27cough\x27"
      [("selected", PyVal.list [PyVal.str "cough", PyVal.str "fever"])] [] =
        true ∧
    evalCondition "selected contains \x27cough\x27"
      [("selected", PyVal.list [PyVal.str "fever"])] [] = false := by
  refine ⟨?_, ?_, by decide, by decide⟩
  · intro c a p lhs rhs hdet
    simp [evalCondition, evalConditionExc, hdet]
  · intro c a p lhs rhs hdet
    simp only [evalCondition, evalConditionExc, hdet]
    cases hv : resolveActual lhs a p <;> simp [hv]

/-- Witness for C9's amended theorem: the `==` clause applied to the
spec's own example `"selected == 'yes'"` against `{selected:"yes"}`. -/
theorem evalCondition_eq_contains_semantics_witness :
    evalCondition "selected == \x27yes\x27"
        [("selected", PyVal.str "yes")] [] =
      (pyStr (resolveActual "selected "
          [("selected", PyVal.str "yes")] []) ==
        stripQuotes (pyStrip " \x27yes\x27")) :=
  evalCondition_eq_contains_semantics.1 "selected == \x27yes\x27"
    [("selected", PyVal.str "yes")] [] "selected " " \x27yes\x27" (by decide)

/-- C3. The clinical rule evaluator emits exactly one `{message, color,
name}` entry per firing rule, in rule declaration order; an `all`-mode
rule fires iff every `node_id` group of its triggers has at least one
matching trigger (AND across groups, OR within a group), and an
`any`-mode rule fires iff some trigger matches. -/
theorem evaluateRules_spec (rules : List ClinicalRule) (answers : AllAnswers) :
    evaluateRules rules answers =
      (rules.filter fun r => ruleFires r answers).map ruleEntry ∧
    (∀ r : ClinicalRule, r.trigger_mode = TriggerMode.all →
        (ruleFires r answers = true ↔
          ∀ nid ∈ r.triggers.map Trigger.node_id,
            ∃ t ∈ r.triggers,
              t.node_id = nid ∧ checkTrigger t answers = true)) ∧
    (∀ r : ClinicalRule, r.trigger_mode = TriggerMode.any →
        (ruleFires r answers = true ↔
          ∃ t ∈ r.triggers, checkTrigger t answers = true)) := by
  refine ⟨?_, ?_, ?_⟩
  · induction rules with
    | nil => rfl
    | cons r rest ih =>
        rw [evaluateRules]
        cases hf : ruleFires r answers with
        | true => simp [List.filter, hf, ih]
        | false => simp [List.filter, hf, ih]
  · intro r hmode
    rw [ruleFires, hmode]
    simp only [List.all_eq_true, List.any_eq_true, Bool.and_eq_true,
      beq_iff_eq, List.mem_dedup]
  · intro r hmode
    rw [ruleFires, hmode]
    simp [List.any_eq_true]

/-- An example `any`-mode clinical rule over two different questions. -/
def exampleAnyRule : ClinicalRule :=
  { message := "Suspicion of COPD", color := "red"
    trigger_mode := TriggerMode.any
    triggers := [ { node_id := "resp_filter", option_value := "yes"
                    match_mode := MatchMode.exact }
                , { node_id := "smoking", option_value := "yes"
                    match_mode := MatchMode.exact } ] }

/-- Witness for C3: the `any`-mode characterisation applied to the
example rule against a concrete answer map. -/
theorem evaluateRules_spec_witness :
    ruleFires exampleAnyRule
        [("resp_filter", [("selected", PyVal.str "yes")])] = true ↔
      ∃ t ∈ exampleAnyRule.triggers,
        checkTrigger t [("resp_filter", [("selected", PyVal.str "yes")])] =
          true :=
  (evaluateRules_spec [exampleAnyRule]
    [("resp_filter", [("selected", PyVal.str "yes")])]).2.2
    exampleAnyRule rfl

theorem pyMin_eq_min (a b : ℚ) : pyMin a b = min a b := by
  unfold pyMin
  rcases lt_or_le b a with h | h
  · rw [if_pos h, min_eq_right h.le]
  · rw [if_neg (not_lt.mpr h), min_eq_left h]

/-- A well-formed one-question graph with no terminal node at all. -/
def singleNodeGraph : Graph :=
  { start_node := some "q1"
    nodes := [ { id := "q1", ntype := some "single_choice"
                 question_text := some "Q", options := ["yes"] } ] }

/-- Counterexample to C4 as stated: `calculate_progress` reaches 100 on
a graph none of whose nodes is final — so certainly before any terminal
node has been entered — where the claim demands a cap strictly below
100 (at 95). The function does not consult terminal state at all. -/
theorem calculateProgress_cap_counterexample :
    calculateProgress singleNodeGraph ["q1"] = 100 ∧
    singleNodeGraph.nodes.all (fun n => !n.is_final) = true := by
  constructor
  · simp +decide [calculateProgress, singleNodeGraph, countableNodes,
      dictNodes, upsertNode, lookupAssoc, pyMin, List.filter]
  · decide

/-- C4 (amended). `calculate_progress` always lies in `[0, 100]` and,
when the graph has countable (non-info) nodes, equals
`min(100, answered / countable * 100)` — its cap is 100 regardless of
terminal entry. The strict-below-100 policy lives in the `submit_answer`
endpoint instead: its inline percentage is 100 exactly when the survey
is finished (next node `None` or flagged `is_final`) and is capped at 95
otherwise, over the estimated path length `max(5, int(countable*0.6))`. -/
theorem calculateProgress_amended :
    (∀ (g : Graph) (answered : List String),
        0 ≤ calculateProgress g answered ∧
          calculateProgress g answered ≤ 100) ∧
    (∀ (g : Graph) (answered : List String),
        (countableNodes g).length ≠ 0 →
        calculateProgress g answered =
          min 100
            (((answered.filter fun nid =>
                  (lookupAssoc (dictNodes g) nid).isSome).length : ℚ) /
                ((countableNodes g).length : ℚ) * 100)) ∧
    (∀ (g : Graph) (next : Option String) (completed : Nat),
        isFinished g next = true → submitProgress g next completed = 100) ∧
    (∀ (g : Graph) (next : Option String) (completed : Nat),
        isFinished g next = false → submitProgress g next completed ≤ 95) := by
  refine ⟨?_, ?_, ?_, ?_⟩
  · intro g answered
    unfold calculateProgress
    simp only [pyMin_eq_min]
    constructor
    · split_ifs
      · norm_num
      · norm_num
      · exact le_min (by norm_num) (by positivity)
    · split_ifs
      · norm_num
      · norm_num
      · exact min_le_left _ _
  · intro g answered hc
    have hd : (dictNodes g).length ≠ 0 := by
      intro h0
      apply hc
      have h1 : (countableNodes g).length ≤ ((dictNodes g).map Prod.snd).length :=
        List.length_filter_le _ _
      rw [List.length_map, h0] at h1
      omega
    unfold calculateProgress
    simp only [pyMin_eq_min]
    split_ifs with h1
    · exact absurd h1 hd
    · rfl
  · intro g next completed hfin
    unfold submitProgress
    rw [if_pos hfin]
  · intro g next completed hfin
    unfold submitProgress
    rw [if_neg (by rw [hfin]; exact Bool.false_ne_true), pyMin_eq_min]
    exact min_le_left _ _

/-- Witness for C4's amended theorem: an unfinished submission on the
one-question graph reports at most 95 percent. -/
theorem calculateProgress_amended_witness :
    submitProgress singleNodeGraph (some "missing") 0 ≤ 95 :=
  calculateProgress_amended.2.2.2 singleNodeGraph (some "missing") 0
    (by decide)

/-- A two-node graph whose second node loops back to the first. -/
def loopGraph : Graph :=
  { start_node := some "a"
    nodes := [ { id := "a"
                 logic := [{ condition := some "selected == \x27go\x27"
                             next_node := some "b" }] }
             , { id := "b"
                 logic := [{ condition := some "selected == \x27ret\x27"
                             next_node := some "a" }] } ] }

/-- Counterexample to C5 as stated: after `a → b → a` the flow re-enters
node `a` (`current_node = "a"`), but `submit_answer` appends to history
only ids not already present, so the re-entered node does **not** appear
at the position it was visited — history stays `["a", "b"]` instead of
the claimed `["a", "b", "a"]`. -/
theorem history_reentry_counterexample :
    ReachableState loopGraph
      (submitAnswer loopGraph
        (submitAnswer loopGraph (startState loopGraph) "a"
          [("selected", PyVal.str "go")])
        "b" [("selected", PyVal.str "ret")]) ∧
    (submitAnswer loopGraph
        (submitAnswer loopGraph (startState loopGraph) "a"
          [("selected", PyVal.str "go")])
        "b" [("selected", PyVal.str "ret")]).current = some "a" ∧
    (submitAnswer loopGraph
        (submitAnswer loopGraph (startState loopGraph) "a"
          [("selected", PyVal.str "go")])
        "b" [("selected", PyVal.str "ret")]).history = ["a", "b"] := by
  refine ⟨?_, by decide, by decide⟩
  exact ReachableState.submit "b" [("selected", PyVal.str "ret")]
    (ReachableState.submit "a" [("selected", PyVal.str "go")]
      ReachableState.start)

/-- C5 (amended). In every reachable flow state, `history` is a
non-empty, duplicate-free list: a node id is appended only on first
entry (a truthy next node not yet present), so a node re-entered after a
loop keeps its single first-visit position, and back-navigation pops the
last entry. -/
theorem history_nodup_invariant (g : Graph) (st : FlowState)
    (h : ReachableState g st) : st.history ≠ [] ∧ st.history.Nodup := by
  induction h with
  | start => exact ⟨by simp [startState], by simp [startState]⟩
  | @submit st node_id answer_data _ ih =>
      obtain ⟨hne, hnd⟩ := ih
      unfold submitAnswer
      cases hnext : getNextNode g node_id answer_data st.answers with
      | none => exact ⟨hne, hnd⟩
      | some nn =>
          simp only
          cases hcond : (nn != "" && !st.history.contains nn) with
          | false => simpa [hcond] using ⟨hne, hnd⟩
          | true =>
              simp only [hcond, if_true]
              simp at hcond
              constructor
              · simp
              · rw [List.nodup_append]
                refine ⟨hnd, List.nodup_singleton nn, ?_⟩
                intro x hx hx'
                rw [List.mem_singleton] at hx'
                subst hx'
                exact hcond.2 hx
  | @back st st' _ hgo ih =>
      obtain ⟨hne, hnd⟩ := ih
      unfold goBack at hgo
      by_cases hlen : st.history.length ≤ 1
      · rw [if_pos hlen] at hgo
        exact absurd hgo (by simp)
      · rw [if_neg hlen] at hgo
        cases hlast : st.history.getLast? with
        | none =>
            rw [hlast] at hgo
            exact absurd hgo (by simp)
        | some popped =>
            rw [hlast] at hgo
            simp only [Option.some_inj] at hgo
            have hhist : st'.history = st.history.dropLast := by
              rw [← hgo]
            constructor
            · rw [hhist]
              have : st.history.dropLast.length = st.history.length - 1 :=
                List.length_dropLast st.history
              intro hnil
              rw [hnil] at this
              simp at this
              omega
            · rw [hhist]
              exact hnd.sublist (List.dropLast_sublist st.history)

/-- Witness for C5's amended theorem: the invariant at the freshly
started session on the loop graph. -/
theorem history_nodup_invariant_witness :
    (startState loopGraph).history ≠ [] ∧
      (startState loopGraph).history.Nodup :=
  history_nodup_invariant loopGraph (startState loopGraph)
    ReachableState.start

/-- C6. Back-navigation with at most one history entry is rejected (the
state is left untouched); with more than one entry it pops the last
id, deletes that node's stored answer, and makes the previous entry the
current node. -/
theorem goBack_spec :
    (∀ st : FlowState, st.history.length ≤ 1 → goBack st = Option.none) ∧
    (∀ (cur : Option String) (ans : AllAnswers) (rest : List String)
        (p : String), rest ≠ [] →
        goBack { current := cur, answers := ans, history := rest ++ [p] } =
          some { current := rest.getLast?, answers := eraseKey p ans
                 history := rest }) := by
  constructor
  · intro st h
    unfold goBack
    rw [if_pos h]
  · intro cur ans rest p hne
    unfold goBack
    have hlen : ¬ (rest ++ [p]).length ≤ 1 := by
      have : 1 ≤ rest.length := List.length_pos.mpr hne
      simp only [List.length_append, List.length_singleton]
      omega
    rw [if_neg hlen]
    have hlast : (rest ++ [p]).getLast? = some p := by
      rw [List.getLast?_concat]
    rw [hlast]
    have hdrop : (rest ++ [p]).dropLast = rest := by
      rw [List.dropLast_concat]
    simp only [hdrop]
    obtain ⟨x, hx⟩ := Option.isSome_iff_exists.mp
      ((List.getLast?_isSome).mpr hne)
    rw [hx]

/-- Witness for C6: the spec's own example — `history=["start"]` is
rejected; `history=["start","q1"]` pops back to `"start"` and drops
`answers["q1"]`. -/
theorem goBack_spec_witness :
    goBack { current := some "start", answers := []
             history := ["start"] } = Option.none ∧
    goBack { current := some "q1"
             answers := [("q1", [("selected", PyVal.str "y")])]
             history := ["start"] ++ ["q1"] } =
      some { current := (["start"] : List String).getLast?
             answers := eraseKey "q1" [("q1", [("selected", PyVal.str "y")])]
             history := ["start"] } :=
  ⟨goBack_spec.1 { current := some "start", answers := []
                   history := ["start"] } (by decide),
   goBack_spec.2 (some "q1") [("q1", [("selected", PyVal.str "y")])]
     ["start"] "q1" (by decide)⟩

/-- A node is well-formed for the validator's per-node error checks:
truthy question text, options on choice-typed nodes, both bounds on
sliders, and every truthy `next_node` reference resolvable. -/
def wellFormedNodeB (ids : List String) (n : SNode) : Bool :=
  truthyOptStr n.question_text &&
  (match n.ntype with
   | some t => !(choiceTypes.contains t) || !n.options.isEmpty
   | Option.none => true) &&
  (!(n.ntype == some "slider") || (n.min_value.isSome && n.max_value.isSome)) &&
  n.logic.all (fun r =>
    match r.next_node with
    | some nid => nid == "" || ids.contains nid
    | Option.none => true)

theorem catMap_eq_nil {α β : Type} (f : α → List β) :
    ∀ l : List α, (∀ x ∈ l, f x = []) → catMap f l = []
  | [], _ => rfl
  | x :: xs, h => by
      rw [catMap, h x (List.mem_cons_self x xs),
        catMap_eq_nil f xs (fun y hy => h y (List.mem_cons_of_mem x hy)),
        List.append_nil]

theorem mem_catMap {α β : Type} (f : α → List β) (b : β) :
    ∀ l : List α, ∀ a ∈ l, b ∈ f a → b ∈ catMap f l
  | x :: xs, a, ha, hb => by
      rw [catMap, List.mem_append]
      rcases List.mem_cons.mp ha with rfl | ha'
      · exact Or.inl hb
      · exact Or.inr (mem_catMap f b xs a ha' hb)

theorem forall_mem_catMap {α β : Type} (f : α → List β) (P : β → Prop)
    (hf : ∀ a, ∀ b ∈ f a, P b) : ∀ l : List α, ∀ b ∈ catMap f l, P b
  | [], b, hb => absurd hb (by simp [catMap])
  | x :: xs, b, hb => by
      rw [catMap, List.mem_append] at hb
      rcases hb with hb | hb
      · exact hf x b hb
      · exact forall_mem_catMap f P hf xs b hb

theorem nodeErrors_eq_nil (ids : List String) (n : SNode)
    (h : wellFormedNodeB ids n = true) : nodeErrors ids n = [] := by
  simp only [wellFormedNodeB, Bool.and_eq_true] at h
  obtain ⟨⟨⟨h1, h2⟩, h3⟩, h4⟩ := h
  unfold nodeErrors
  have p1 : (truthyOptStr n.question_text = false) = False := by
    simp [h1]
  have p2 : (match n.ntype with
      | some t =>
          if t ∈ choiceTypes ∧ n.options = [] then
            [{ type := "error", node_id := some n.id
               message := "Узел \x27" ++ n.id ++ "\x27 типа \x27" ++ t ++
                 "\x27 не имеет вариантов ответа" : ValidationIssue }]
          else []
      | Option.none => ([] : List ValidationIssue)) = [] := by
    cases hnt : n.ntype with
    | none => rfl
    | some t =>
        rw [hnt] at h2
        have h2b : (!choiceTypes.contains t || !n.options.isEmpty) = true := h2
        have hneg : ¬(t ∈ choiceTypes ∧ n.options = []) := by
          intro hq
          have hct : choiceTypes.contains t = true := by simpa using hq.1
          have hoe : n.options.isEmpty = true := by simp [hq.2]
          rw [hct, hoe] at h2b
          simp at h2b
        simp [hneg]
  have p3 : catMap (fun r =>
      match r.next_node with
      | some nid =>
          if nid ≠ "" ∧ nid ∉ ids then
            [{ type := "error", node_id := some n.id
               message := "Узел \x27" ++ n.id ++
                 "\x27 ссылается на несуществующий узел \x27" ++ nid ++
                 "\x27" : ValidationIssue }]
          else []
      | Option.none => ([] : List ValidationIssue)) n.logic = [] := by
    apply catMap_eq_nil
    intro r hr
    have hrr := List.all_eq_true.mp h4 r hr
    cases hnn : r.next_node with
    | none => rfl
    | some nid =>
        rw [hnn] at hrr
        have hrr2 : (nid == "" || ids.contains nid) = true := hrr
        have hneg : ¬(nid ≠ "" ∧ nid ∉ ids) := by
          intro hq
          rcases (Bool.or_eq_true _ _).mp hrr2 with hc | hc
          · exact hq.1 (by simpa using hc)
          · exact hq.2 (by simpa using hc)
        simp [hneg]
  have p4 : ¬(n.ntype = some "slider" ∧
      (n.min_value = Option.none ∨ n.max_value = Option.none)) := by
    intro hq
    obtain ⟨ha, hb⟩ := hq
    rw [ha] at h3
    simp only [beq_self_eq_true, Bool.not_true, Bool.false_or,
      Bool.and_eq_true] at h3
    rcases hb with hb | hb <;> simp [hb] at h3
  simp only [p1, if_false, p2, p3, if_neg p4, List.nil_append,
    List.append_nil]

/-- C7. On a graph whose non-empty `start_node` id does not occur among
the node ids and whose nodes pass every per-node check,
`validate_survey_structure` yields `valid = false` and exactly one
error, and that error carries the missing start-node id. -/
theorem missing_start_single_error (g : Graph) (s : String)
    (hs : g.start_node = some s) (hne : s ≠ "")
    (habs : s ∉ g.nodes.map SNode.id)
    (hwf : ∀ n ∈ g.nodes,
      wellFormedNodeB (g.nodes.map SNode.id) n = true) :
    (validateSurveyStructure g).valid = false ∧
    ∃ e, (validateSurveyStructure g).errors = [e] ∧
      e.type = "error" ∧ e.node_id = some s := by
  have hnodes : catMap (nodeErrors (g.nodes.map SNode.id)) g.nodes = [] :=
    catMap_eq_nil _ g.nodes (fun n hn => nodeErrors_eq_nil _ n (hwf n hn))
  have hstart : startErrors g.start_node (g.nodes.map SNode.id) =
      [{ type := "error", node_id := some s
         message := "Стартовый узел \x27" ++ s ++
           "\x27 не найден среди узлов" }] := by
    rw [hs]
    simp [startErrors, truthyOptStr, hne, habs]
  have herr : validateErrors g =
      [{ type := "error", node_id := some s
         message := "Стартовый узел \x27" ++ s ++
           "\x27 не найден среди узлов" }] := by
    simp only [validateErrors]
    rw [hnodes, hstart, List.append_nil]
  have hproj : (validateSurveyStructure g).errors = validateErrors g := rfl
  have hvalid : (validateSurveyStructure g).valid =
      (validateErrors g).isEmpty := rfl
  refine ⟨?_, ⟨{ type := "error", node_id := some s
                 message := "Стартовый узел \x27" ++ s ++
                   "\x27 не найден среди узлов" }, ?_, rfl, rfl⟩⟩
  · rw [hvalid, herr]
    rfl
  · rw [hproj, herr]

/-- A graph whose start node id resolves to nothing, with one otherwise
well-formed question node. -/
def missingStartGraph : Graph :=
  { start_node := some "s0"
    nodes := [ { id := "q1", ntype := some "text_input"
                 question_text := some "Q" } ] }

/-- Witness for C7: the validator flags exactly one error, carrying the
missing start id `s0`. -/
theorem missing_start_single_error_witness :
    (validateSurveyStructure missingStartGraph).valid = false ∧
    ∃ e, (validateSurveyStructure missingStartGraph).errors = [e] ∧
      e.type = "error" ∧ e.node_id = some "s0" :=
  missing_start_single_error missingStartGraph "s0" rfl (by decide)
    (by decide) (by decide)

theorem mem_startErrors_type (sn : Option String) (ids : List String) :
    ∀ e ∈ startErrors sn ids, e.type = "error" := by
  intro e he
  unfold startErrors at he
  by_cases h1 : truthyOptStr sn = false
  · rw [if_pos h1] at he
    rw [List.mem_singleton] at he
    subst he
    rfl
  · rw [if_neg h1] at he
    cases sn with
    | none => exact absurd he (List.not_mem_nil e)
    | some s =>
        have he2 : e ∈ (if s ∈ ids then ([] : List ValidationIssue)
            else [{ type := "error", node_id := some s
                    message := "Стартовый узел \x27" ++ s ++
                      "\x27 не найден среди узлов" }]) := he
        by_cases h2 : s ∈ ids
        · rw [if_pos h2] at he2
          exact absurd he2 (List.not_mem_nil e)
        · rw [if_neg h2] at he2
          rw [List.mem_singleton] at he2
          subst he2
          rfl

theorem mem_nodeErrors_type (ids : List String) (n : SNode) :
    ∀ e ∈ nodeErrors ids n, e.type = "error" := by
  intro e he
  unfold nodeErrors at he
  simp only [List.mem_append] at he
  rcases he with ((he | he) | he) | he
  · by_cases h : truthyOptStr n.question_text = false
    · rw [if_pos h] at he
      rw [List.mem_singleton] at he
      subst he
      rfl
    · rw [if_neg h] at he
      exact absurd he (List.not_mem_nil e)
  · cases hnt : n.ntype with
    | none =>
        rw [hnt] at he
        exact absurd he (List.not_mem_nil e)
    | some t =>
        rw [hnt] at he
        have he2 : e ∈ (if t ∈ choiceTypes ∧ n.options = [] then
            [{ type := "error", node_id := some n.id
               message := "Узел \x27" ++ n.id ++ "\x27 типа \x27" ++ t ++
                 "\x27 не имеет вариантов ответа" : ValidationIssue }]
            else []) := he
        by_cases h : t ∈ choiceTypes ∧ n.options = []
        · rw [if_pos h] at he2
          rw [List.mem_singleton] at he2
          subst he2
          rfl
        · rw [if_neg h] at he2
          exact absurd he2 (List.not_mem_nil e)
  · refine forall_mem_catMap _ (fun b => b.type = "error") ?_ n.logic e he
    intro r b hb
    cases hnn : r.next_node with
    | none =>
        rw [hnn] at hb
        exact absurd hb (List.not_mem_nil b)
    | some nid =>
        rw [hnn] at hb
        have hb2 : b ∈ (if nid ≠ "" ∧ nid ∉ ids then
            [{ type := "error", node_id := some n.id
               message := "Узел \x27" ++ n.id ++
                 "\x27 ссылается на несуществующий узел \x27" ++ nid ++
                 "\x27" : ValidationIssue }]
            else []) := hb
        by_cases h : nid ≠ "" ∧ nid ∉ ids
        · rw [if_pos h] at hb2
          rw [List.mem_singleton] at hb2
          subst hb2
          rfl
        · rw [if_neg h] at hb2
          exact absurd hb2 (List.not_mem_nil b)
  · by_cases h : n.ntype = some "slider" ∧
        (n.min_value = Option.none ∨ n.max_value = Option.none)
    · rw [if_pos h] at he
      rw [List.mem_singleton] at he
      subst he
      rfl
    · rw [if_neg h] at he
      exact absurd he (List.not_mem_nil e)

/-- C8. A node distinct from the start node and outside the structural
reachable set (the DFS over every configured truthy `next_node` edge,
conditions ignored) is reported by the unreachable warning; the error
list — and hence `valid` — is computed by `validateErrors`, which never
consults reachability, and every one of its entries has type `error`, so
unreachability alone can never surface as an error or make `valid`
false. -/
theorem unreachable_node_is_warning (g : Graph) (n : SNode)
    (hmem : n ∈ g.nodes) (hunreach : n.id ∉ reachableSet g)
    (hnotstart : notStartB g.start_node n.id = true) :
    unreachableWarning n.id ∈ (validateSurveyStructure g).warnings ∧
    (validateSurveyStructure g).errors = validateErrors g ∧
    (∀ e ∈ (validateSurveyStructure g).errors, e.type = "error") ∧
    ((validateSurveyStructure g).valid = true ↔ validateErrors g = []) := by
  refine ⟨?_, rfl, ?_, ?_⟩
  · have hcont : (reachableSet g).contains n.id = false := by
      by_cases hc : (reachableSet g).contains n.id = true
      · exact absurd (by simpa using hc) hunreach
      · simpa using hc
    have hcond : (!(reachableSet g).contains n.id &&
        notStartB g.start_node n.id) = true := by
      rw [hcont, hnotstart]
      rfl
    have hw : unreachableWarning n.id ∈
        nodeWarnings g.start_node (reachableSet g) n := by
      unfold nodeWarnings
      rw [List.mem_append]
      right
      rw [if_pos hcond]
      exact List.mem_singleton_self _
    show unreachableWarning n.id ∈ validateWarnings g
    unfold validateWarnings
    rw [List.mem_append]
    right
    exact mem_catMap _ _ g.nodes n hmem hw
  · intro e he
    have he2 : e ∈ validateErrors g := he
    simp only [validateErrors] at he2
    rw [List.mem_append] at he2
    rcases he2 with he2 | he2
    · exact mem_startErrors_type _ _ e he2
    · exact forall_mem_catMap _ (fun b => b.type = "error")
        (fun a => mem_nodeErrors_type _ a) g.nodes e he2
  · show (validateErrors g).isEmpty = true ↔ validateErrors g = []
    cases validateErrors g <;> simp

/-- A graph with a node `c` that no configured edge reaches. -/
def unreachableGraph : Graph :=
  { start_node := some "a"
    nodes := [ { id := "a", ntype := some "text_input"
                 question_text := some "q"
                 logic := [{ condition := some "x", next_node := some "b" }] }
             , { id := "b", ntype := some "info_screen"
                 question_text := some "q" }
             , { id := "c", ntype := some "info_screen"
                 question_text := some "q" } ] }

/-- The unreachable node of `unreachableGraph`. -/
def unreachableCNode : SNode :=
  { id := "c", ntype := some "info_screen", question_text := some "q" }

/-- Witness for C8: node `c` of the example graph gets the unreachable
warning while the validator's errors stay reachability-free. -/
theorem unreachable_node_is_warning_witness :
    unreachableWarning unreachableCNode.id ∈
      (validateSurveyStructure unreachableGraph).warnings ∧
    ((validateSurveyStructure unreachableGraph).valid = true ↔
      validateErrors unreachableGraph = []) :=
  ⟨(unreachable_node_is_warning unreachableGraph unreachableCNode
      (by decide) (by decide) (by decide)).1,
   (unreachable_node_is_warning unreachableGraph unreachableCNode
      (by decide) (by decide) (by decide)).2.2.2⟩

end Opros
